import Mathlib

/-!
# Verification of `FilePagedSequence` (n6lib.common_helpers)

A shallow embedding of the paged, disk-spilling mutable sequence
`FilePagedSequence` from `src/N6Lib/n6lib/common_helpers.py`.

The Python object state is modelled by the structure `N6.FPS`:
* `page_size`, `cur_len`, `cur_page_no`, `cur_page_data`, `closed`
  mirror the attributes `_page_size`, `_cur_len`, `_cur_page_no`,
  `_cur_page_data`, `_closed`;
* the filesystem side effects are made explicit: `files` is the set of
  page files on the backing directory (an association list from page
  number to the pickled page contents), `dir_allocated` records whether
  the `reify`-cached `_dir` attribute has been computed (this is what
  `_filesystem_used()` inspects), and `dir_exists` records whether the
  backing directory currently exists on disk (`mkdtemp` creates it at
  the first `_dir` access; `close()` removes it).

Fallible operations return `Except Err`; `Err` enumerates the exception
kinds the Python code can raise (`IndexError`, `NotImplementedError`,
`ZeroDivisionError` from an unguarded `divmod`, and environment I/O
errors).  Python's `divmod` on integers is floor division, i.e.
`Int.fdiv` / `Int.fmod`, guarded by the divisor-zero check; Python list
indexing (negative wrap-around plus bounds check) is modelled by
`pyListGet` / `pyListSet` / `pyListPop`.
-/

set_option maxHeartbeats 1000000

namespace N6

/-- Exception kinds raised by the Python code: `IndexError`,
`NotImplementedError`, `ZeroDivisionError`, and I/O failures of the
backing store. -/
inductive Err : Type
  | indexError
  | notImplemented
  | zeroDivision
  | ioError
  deriving DecidableEq

/-- State of a `FilePagedSequence` instance together with its
filesystem footprint. -/
structure FPS (α : Type) : Type where
  page_size : Int
  cur_len : Nat
  cur_page_no : Option Int
  cur_page_data : List α
  closed : Bool
  files : List (Int × List α)
  dir_allocated : Bool
  dir_exists : Bool
  deriving DecidableEq

variable {α : Type}

/-- Python `divmod(a, b)` on integers: floor division and matching
remainder, raising `ZeroDivisionError` when `b = 0`. -/
def pyDivMod (a b : Int) : Except Err (Int × Int) :=
  if b = 0 then .error .zeroDivision else .ok (a.fdiv b, a.fmod b)

/-- Python sequence-index normalization: a negative index counts from
the end (`effective = length + index`). -/
def pyNorm (len : Nat) (i : Int) : Int :=
  if i < 0 then (len : Int) + i else i

/-- The normalized index denotes a valid position of a sequence of the
given length. -/
def pyInRange (len : Nat) (i : Int) : Prop :=
  0 ≤ pyNorm len i ∧ pyNorm len i < (len : Int)

instance (len : Nat) (i : Int) : Decidable (pyInRange len i) := by
  unfold pyInRange
  exact instDecidableAnd

/-- Python `l[i]` on a list: negative wrap-around, `IndexError` when out
of range. -/
def pyListGet (l : List α) (i : Int) : Except Err α :=
  let j := pyNorm l.length i
  if 0 ≤ j ∧ j < (l.length : Int) then
    match l.get? j.toNat with
    | some v => .ok v
    | none => .error .indexError
  else .error .indexError

/-- Python `l[i] = v` on a list. -/
def pyListSet (l : List α) (i : Int) (v : α) : Except Err (List α) :=
  let j := pyNorm l.length i
  if 0 ≤ j ∧ j < (l.length : Int) then .ok (l.set j.toNat v)
  else .error .indexError

/-- Python `l.pop(i)` on a list: returns the removed element and the
remaining list. -/
def pyListPop (l : List α) (i : Int) : Except Err (α × List α) :=
  let j := pyNorm l.length i
  if 0 ≤ j ∧ j < (l.length : Int) then
    match l.get? j.toNat with
    | some v => .ok (v, l.eraseIdx j.toNat)
    | none => .error .indexError
  else .error .indexError

/-- First access to the `reify`-cached `_dir` attribute: `mkdtemp`
creates the backing directory; later accesses return the cached path
and have no filesystem effect. -/
def allocDir (s : FPS α) : FPS α :=
  if s.dir_allocated then s
  else { s with dir_allocated := true, dir_exists := true }

/-- Store a page file: create or overwrite the file named by the page
number. -/
def setFile (files : List (Int × List α)) (k : Int) (d : List α) :
    List (Int × List α) :=
  match files with
  | [] => [(k, d)]
  | (k', d') :: rest =>
      if k' = k then (k, d) :: rest else (k', d') :: setFile rest k d

/-- Read a page file, if present. -/
def lookupFile (files : List (Int × List α)) (k : Int) : Option (List α) :=
  match files with
  | [] => none
  | (k', d') :: rest => if k' = k then some d' else lookupFile rest k

/-- The flush half of `_switch_to`: if a page is resident, pickle it to
its page file (accessing `_dir`, hence creating the backing directory
on first use). -/
def saveResident (s : FPS α) : Except Err (FPS α) :=
  match s.cur_page_no with
  | some p =>
      let t := allocDir s
      if t.dir_exists then
        Except.ok { t with files := setFile t.files p t.cur_page_data }
      else Except.error Err.ioError
  | none => Except.ok s

/-- `_switch_to(page_no, new)`: flush the resident page if any; then
either initialize a fresh empty page (`new`) or unpickle the target
page file; finally make the target page resident.  Opening a file in a
missing directory or unpickling a missing file is an I/O error. -/
def switchTo (s : FPS α) (pageNo : Int) (nw : Bool) : Except Err (FPS α) :=
  match saveResident s with
  | Except.error e => Except.error e
  | Except.ok s1 =>
      if nw then
        Except.ok { s1 with cur_page_data := [], cur_page_no := some pageNo }
      else
        let t := allocDir s1
        if t.dir_exists then
          match lookupFile t.files pageNo with
          | some d =>
              Except.ok { t with cur_page_data := d,
                                 cur_page_no := some pageNo }
          | none => Except.error Err.ioError
        else Except.error Err.ioError

/-- `_local_index(index)`: normalize a negative index, bounds-check
against the current length, then `divmod` by the page size and swap the
target page in when it is not the resident one.  Returns the local
index within the resident page and the updated state. -/
def localIndex (s : FPS α) (index : Int) : Except Err (Int × FPS α) :=
  let ix : Int := pyNorm s.cur_len index
  if 0 ≤ ix ∧ ix < (s.cur_len : Int) then
    match pyDivMod ix s.page_size with
    | Except.error e => Except.error e
    | Except.ok (pageNo, li) =>
        if s.cur_page_no ≠ some pageNo then
          match switchTo s pageNo false with
          | Except.error e => Except.error e
          | Except.ok s' => Except.ok (li, s')
        else Except.ok (li, s)
  else Except.error Err.indexError

/-- `__getitem__` (for a non-slice index). -/
def getItem (s : FPS α) (index : Int) : Except Err (α × FPS α) :=
  match localIndex s index with
  | Except.error e => Except.error e
  | Except.ok (li, s') =>
      match pyListGet s'.cur_page_data li with
      | Except.error e => Except.error e
      | Except.ok v => Except.ok (v, s')

/-- `__setitem__` (for a non-slice index). -/
def setItem (s : FPS α) (index : Int) (v : α) : Except Err (FPS α) :=
  match localIndex s index with
  | Except.error e => Except.error e
  | Except.ok (li, s') =>
      match pyListSet s'.cur_page_data li v with
      | Except.error e => Except.error e
      | Except.ok d => Except.ok { s' with cur_page_data := d }

/-- `append(value)`: `divmod(cur_len, page_size)` locates the target
page; a swap (with a fresh page exactly when the local index is `0`)
happens when that page is not resident; then the value is appended to
the resident page and the length grows. -/
def append (s : FPS α) (v : α) : Except Err (FPS α) :=
  match pyDivMod (s.cur_len : Int) s.page_size with
  | Except.error e => Except.error e
  | Except.ok (pageNo, li) =>
      match
        (if s.cur_page_no ≠ some pageNo then
          switchTo s pageNo (decide (li = 0))
        else Except.ok s) with
      | Except.error e => Except.error e
      | Except.ok s' =>
          Except.ok { s' with cur_page_data := s'.cur_page_data ++ [v],
                              cur_len := s'.cur_len + 1 }

/-- `pop(index=-1)`: any index other than the literal `-1` raises
`NotImplementedError`; otherwise resolve the local index of the last
item (possibly swapping its page in), remove it from the resident page
and shrink the length. -/
def pop (s : FPS α) (index : Int) : Except Err (α × FPS α) :=
  if index ≠ -1 then Except.error Err.notImplemented
  else
    match localIndex s (-1) with
    | Except.error e => Except.error e
    | Except.ok (li, s') =>
        match pyListPop s'.cur_page_data li with
        | Except.error e => Except.error e
        | Except.ok (v, d) =>
            Except.ok (v, { s' with cur_page_data := d,
                                    cur_len := s'.cur_len - 1 })

/-- `extend(iterable)` (inherited `MutableSequence` mixin): append each
item in iteration order. -/
def extendFPS (s : FPS α) : List α → Except Err (FPS α)
  | [] => Except.ok s
  | v :: rest =>
      match append s v with
      | Except.error e => Except.error e
      | Except.ok s' => extendFPS s' rest

/-- A freshly constructed, empty `FilePagedSequence`: no page resident,
no page files, backing directory neither allocated nor created. -/
def mkFPS (α : Type) (page_size : Int) : FPS α :=
  { page_size := page_size, cur_len := 0, cur_page_no := none,
    cur_page_data := [], closed := false, files := [],
    dir_allocated := false, dir_exists := false }

/-- `FilePagedSequence(iterable, page_size)`: start empty and extend
with the initial items. -/
def construct (l : List α) (page_size : Int) : Except Err (FPS α) :=
  extendFPS (mkFPS α page_size) l

/-- `clear()`: reset in-memory state; page files are left untouched. -/
def clearFPS (s : FPS α) : FPS α :=
  { s with cur_page_data := [], cur_page_no := none, cur_len := 0 }

/-- `_filesystem_used()`: whether the `reify`-cached `_dir` attribute
has ever been computed. -/
def filesystemUsed (s : FPS α) : Bool := s.dir_allocated

/-- `close()`: on a not-yet-closed sequence, clear the in-memory state,
and if the filesystem was used remove every page file and the backing
directory; a second call is a no-op thanks to the `_closed` flag. -/
def close (s : FPS α) : FPS α :=
  if s.closed then s
  else
    let t := clearFPS s
    if filesystemUsed t then
      { t with files := [], dir_exists := false, closed := true }
    else { t with closed := true }

/-- Auxiliary loop for `__iter__`: read `n` consecutive items starting
at logical index `i`, threading the state (each read may swap pages). -/
def iterGo : FPS α → Nat → Nat → Except Err (List α × FPS α)
  | s, _, 0 => Except.ok ([], s)
  | s, i, n + 1 =>
      match getItem s (i : Int) with
      | Except.error e => Except.error e
      | Except.ok (v, s') =>
          match iterGo s' (i + 1) n with
          | Except.error e => Except.error e
          | Except.ok (vs, s'') => Except.ok (v :: vs, s'')

/-- `__iter__` (inherited `Sequence` mixin): yield `self[0]`,
`self[1]`, … until `IndexError`.  `getItem` never changes `cur_len` and
fails with `IndexError` exactly at index `cur_len`, so the iteration
reads precisely the indices `0 .. cur_len - 1`. -/
def iterate (s : FPS α) : Except Err (List α × FPS α) :=
  iterGo s 0 s.cur_len

/-- A finite series of `get` accesses at the given indices, threading
the state. -/
def getSeries : FPS α → List Int → Except Err (List α × FPS α)
  | s, [] => Except.ok ([], s)
  | s, k :: ks =>
      match getItem s k with
      | Except.error e => Except.error e
      | Except.ok (v, s') =>
          match getSeries s' ks with
          | Except.error e => Except.error e
          | Except.ok (vs, s'') => Except.ok (v :: vs, s'')

/-- The contiguous run of items forming logical page `p` of a list,
given a page size. -/
def pageSlice (l : List α) (psN : Nat) (p : Nat) : List α :=
  (l.drop (p * psN)).take psN

/-- The abstraction relation: state `s` is a consistent representation
of the logical item list `l`.  It packages the reachable-state
invariant: positive page size, correct length, not closed, directory
existence tracks its lazy allocation, page files appear only after the
directory was allocated, the resident page holds exactly its slice of
`l`, and every non-resident page that logically exists is present as a
page file holding its current slice (the resident page's own file may
be stale; files for no-longer-existing pages may linger). -/
def represents (s : FPS α) (l : List α) : Prop :=
  1 ≤ s.page_size ∧
  s.cur_len = l.length ∧
  s.closed = false ∧
  s.dir_exists = s.dir_allocated ∧
  (s.files = [] ∨ s.dir_allocated = true) ∧
  (match s.cur_page_no with
   | none => l = [] ∧ s.cur_page_data = []
   | some p => 0 ≤ p ∧
       s.cur_page_data = pageSlice l s.page_size.toNat p.toNat) ∧
  (∀ q : Nat, q * s.page_size.toNat < l.length →
     s.cur_page_no ≠ some (q : Int) →
     lookupFile s.files (q : Int) =
       some (pageSlice l s.page_size.toNat q))

/-- `__len__`: the current logical length. -/
def lenFPS (s : FPS α) : Nat := s.cur_len

/-- Invariant of a state reached by constructing a sequence from `m`
appended items and nothing else: the page holding the last item (if
any) is resident, and the backing directory exists exactly when the
items have overflowed one page. -/
def consInv (psN : Nat) (m : Nat) (s : FPS α) : Prop :=
  s.cur_page_no = (if m = 0 then none
    else some (((m - 1) / psN : Nat) : Int)) ∧
  (m ≤ psN → s.dir_allocated = false ∧ s.files = []) ∧
  (psN < m → s.dir_allocated = true)

/-- A sample mid-life state over `Nat` items: page size `3`, logical
contents `[10, 20, 30, 40]`, page `1` resident in memory, page `0`
present as a page file. -/
def sEx : FPS Nat :=
  { page_size := 3, cur_len := 4, cur_page_no := some 1,
    cur_page_data := [40], closed := false, files := [(0, [10, 20, 30])],
    dir_allocated := true, dir_exists := true }

/-! ### Arithmetic bridges: Python `divmod` on naturals -/

theorem fdiv_natCast (a psN : Nat) :
    ((a : Int)).fdiv (psN : Int) = ((a / psN : Nat) : Int) := by
  rw [Int.fdiv_eq_ediv _ (by positivity)]
  exact (Int.ofNat_ediv a psN).symm

theorem fmod_natCast (a psN : Nat) :
    ((a : Int)).fmod (psN : Int) = ((a % psN : Nat) : Int) := by
  rw [Int.fmod_eq_emod _ (by positivity)]
  exact (Int.ofNat_emod a psN).symm

/-! ### Page-file association list -/

theorem lookupFile_setFile_same (files : List (Int × List α)) (k : Int)
    (d : List α) : lookupFile (setFile files k d) k = some d := by
  induction files with
  | nil => simp [setFile, lookupFile]
  | cons hd tl ih =>
      obtain ⟨k', d'⟩ := hd
      by_cases h : k' = k
      · simp [setFile, lookupFile, h]
      · simp [setFile, lookupFile, h, ih]

theorem lookupFile_setFile_other (files : List (Int × List α)) {k k' : Int}
    (d : List α) (h : k ≠ k') :
    lookupFile (setFile files k d) k' = lookupFile files k' := by
  induction files with
  | nil => simp [setFile, lookupFile, h]
  | cons hd tl ih =>
      obtain ⟨k0, d0⟩ := hd
      by_cases h0 : k0 = k
      · subst h0
        simp [setFile, lookupFile, h]
      · by_cases h1 : k0 = k'
        · simp [setFile, lookupFile, h0, h1, Ne.symm h]
        · simp [setFile, lookupFile, h0, h1, ih]

theorem setFile_ne_nil (files : List (Int × List α)) (k : Int) (d : List α) :
    setFile files k d ≠ [] := by
  cases files with
  | nil => simp [setFile]
  | cons hd tl =>
      obtain ⟨k', d'⟩ := hd
      by_cases h : k' = k <;> simp [setFile, h]

/-! ### Lazy directory allocation -/

@[simp] theorem allocDir_page_size (s : FPS α) :
    (allocDir s).page_size = s.page_size := by
  unfold allocDir; split <;> rfl

@[simp] theorem allocDir_cur_len (s : FPS α) :
    (allocDir s).cur_len = s.cur_len := by
  unfold allocDir; split <;> rfl

@[simp] theorem allocDir_cur_page_no (s : FPS α) :
    (allocDir s).cur_page_no = s.cur_page_no := by
  unfold allocDir; split <;> rfl

@[simp] theorem allocDir_cur_page_data (s : FPS α) :
    (allocDir s).cur_page_data = s.cur_page_data := by
  unfold allocDir; split <;> rfl

@[simp] theorem allocDir_files (s : FPS α) :
    (allocDir s).files = s.files := by
  unfold allocDir; split <;> rfl

@[simp] theorem allocDir_closed (s : FPS α) :
    (allocDir s).closed = s.closed := by
  unfold allocDir; split <;> rfl

@[simp] theorem allocDir_dir_allocated (s : FPS α) :
    (allocDir s).dir_allocated = true := by
  unfold allocDir; split <;> simp_all

theorem allocDir_dir_exists (s : FPS α) (h : s.dir_exists = s.dir_allocated) :
    (allocDir s).dir_exists = true := by
  unfold allocDir; split <;> simp_all

/-! ### Page slices -/

theorem pageSlice_getElem? (l : List α) (psN p m : Nat) :
    (pageSlice l psN p)[m]? = if m < psN then l[p * psN + m]? else none := by
  simp [pageSlice, List.getElem?_take, List.getElem?_drop]

theorem pageSlice_length (l : List α) (psN p : Nat) :
    (pageSlice l psN p).length = min psN (l.length - p * psN) := by
  simp [pageSlice]

theorem pageSlice_set_same (l : List α) {psN k : Nat} (v : α)
    (hps : 0 < psN) (hk : k < l.length) :
    pageSlice (l.set k v) psN (k / psN) =
      (pageSlice l psN (k / psN)).set (k % psN) v := by
  have hmd : k / psN * psN + k % psN = k := by
    rw [Nat.mul_comm]; exact Nat.div_add_mod k psN
  have hml := Nat.mod_lt k hps
  have hslen := pageSlice_length l psN (k / psN)
  apply List.ext_getElem?
  intro m
  simp only [pageSlice_getElem?, List.getElem?_set]
  split_ifs <;> first | rfl | (exfalso; omega)

theorem pageSlice_set_other (l : List α) {psN k q : Nat} (v : α)
    (hps : 0 < psN) (hq : q ≠ k / psN) :
    pageSlice (l.set k v) psN q = pageSlice l psN q := by
  apply List.ext_getElem?
  intro m
  rw [pageSlice_getElem?, pageSlice_getElem?]
  by_cases hm : m < psN
  · rw [if_pos hm, if_pos hm]
    have hne : k ≠ q * psN + m := by
      intro hcon
      have hdiv : (q * psN + m) / psN = q := by
        rw [Nat.add_comm, Nat.add_mul_div_right _ _ hps,
          Nat.div_eq_of_lt hm, Nat.zero_add]
      rw [hcon, hdiv] at hq
      exact hq rfl
    rw [List.getElem?_set_ne hne]
  · rw [if_neg hm, if_neg hm]

theorem pageSlice_append_last (l : List α) {psN : Nat} (v : α)
    (hps : 0 < psN) :
    pageSlice (l ++ [v]) psN (l.length / psN) =
      pageSlice l psN (l.length / psN) ++ [v] := by
  have hmd : l.length / psN * psN + l.length % psN = l.length := by
    rw [Nat.mul_comm]; exact Nat.div_add_mod l.length psN
  have hml := Nat.mod_lt l.length hps
  have hslen : (pageSlice l psN (l.length / psN)).length = l.length % psN := by
    rw [pageSlice_length]; omega
  apply List.ext_getElem?
  intro m
  rw [pageSlice_getElem?]
  by_cases hm : m < psN
  · rw [if_pos hm]
    by_cases h1 : m < l.length % psN
    · rw [List.getElem?_append_left (by omega),
        List.getElem?_append_left (by omega), pageSlice_getElem?, if_pos hm]
    · by_cases h2 : m = l.length % psN
      · subst h2
        have hidx : l.length / psN * psN + l.length % psN = l.length := hmd
        rw [hidx, List.getElem?_concat_length,
          List.getElem?_append_right (by omega), hslen]
        simp
      · rw [List.getElem?_eq_none (by simp; omega),
          List.getElem?_eq_none (by simp [hslen]; omega)]
  · rw [if_neg hm,
      List.getElem?_eq_none (by simp [hslen]; omega)]

theorem pageSlice_append_other (l : List α) {psN q : Nat} (v : α)
    (h : q * psN + psN ≤ l.length) :
    pageSlice (l ++ [v]) psN q = pageSlice l psN q := by
  apply List.ext_getElem?
  intro m
  rw [pageSlice_getElem?, pageSlice_getElem?]
  by_cases hm : m < psN
  · rw [if_pos hm, if_pos hm, List.getElem?_append_left (by omega)]
  · rw [if_neg hm, if_neg hm]

theorem pageSlice_take (l : List α) {psN q m : Nat}
    (h : q * psN + psN ≤ m) :
    pageSlice (l.take m) psN q = pageSlice l psN q := by
  apply List.ext_getElem?
  intro j
  rw [pageSlice_getElem?, pageSlice_getElem?]
  by_cases hj : j < psN
  · rw [if_pos hj, if_pos hj, List.getElem?_take, if_pos (by omega)]
  · rw [if_neg hj, if_neg hj]

theorem pageSlice_dropLast_last (l : List α) {psN : Nat}
    (hps : 0 < psN) (hn : l ≠ []) :
    pageSlice l.dropLast psN ((l.length - 1) / psN) =
      (pageSlice l psN ((l.length - 1) / psN)).dropLast := by
  have hlen : 1 ≤ l.length := List.length_pos.mpr hn
  have hmd : (l.length - 1) / psN * psN + (l.length - 1) % psN
      = l.length - 1 := by
    rw [Nat.mul_comm]; exact Nat.div_add_mod (l.length - 1) psN
  have hml := Nat.mod_lt (l.length - 1) hps
  have hslen : (pageSlice l psN ((l.length - 1) / psN)).length =
      (l.length - 1) % psN + 1 := by
    rw [pageSlice_length]; omega
  apply List.ext_getElem?
  intro m
  simp only [List.dropLast_eq_take, hslen, pageSlice_getElem?,
    List.getElem?_take]
  split_ifs <;> first | rfl | (exfalso; omega)

theorem eraseIdx_last (d : List α) (h : d ≠ []) :
    d.eraseIdx (d.length - 1) = d.dropLast := by
  have hlen : 1 ≤ d.length := List.length_pos.mpr h
  rw [List.eraseIdx_eq_take_drop_succ, List.dropLast_eq_take]
  have h1 : d.length - 1 + 1 = d.length := by omega
  rw [h1, List.drop_length, List.append_nil]

/-! ### Page-swap lemmas -/

theorem allocDir_of_allocated (s : FPS α) (h : s.dir_allocated = true) :
    allocDir s = s := by
  unfold allocDir
  rw [h]
  simp

theorem saveResident_some (s : FPS α) (p : Int) (hpn : s.cur_page_no = some p)
    (hde : s.dir_exists = s.dir_allocated) :
    saveResident s = Except.ok
      { s with files := setFile s.files p s.cur_page_data,
               dir_allocated := true, dir_exists := true } := by
  obtain ⟨ps, cl, cpn, cpd, c, fs, da, de⟩ := s
  simp only at hpn hde
  subst hpn
  subst hde
  cases de <;> simp [saveResident, allocDir]

theorem saveResident_none (s : FPS α) (hpn : s.cur_page_no = none) :
    saveResident s = Except.ok s := by
  unfold saveResident
  rw [hpn]

theorem switchTo_new (s : FPS α) (pageNo : Int) (t : FPS α)
    (hsv : saveResident s = Except.ok t) :
    switchTo s pageNo true = Except.ok
      { t with cur_page_data := [], cur_page_no := some pageNo } := by
  unfold switchTo
  rw [hsv]
  simp

theorem switchTo_load (s : FPS α) (pageNo : Int) (t : FPS α) (d : List α)
    (hsv : saveResident s = Except.ok t)
    (hda : t.dir_allocated = true) (hde : t.dir_exists = true)
    (hlk : lookupFile t.files pageNo = some d) :
    switchTo s pageNo false = Except.ok
      { t with cur_page_data := d, cur_page_no := some pageNo } := by
  unfold switchTo
  rw [hsv]
  simp only [Bool.false_eq_true, if_false, allocDir_of_allocated t hda, hde,
    if_true, hlk]

theorem localIndex_err (s : FPS α) (i : Int)
    (h : ¬ pyInRange s.cur_len i) :
    localIndex s i = Except.error Err.indexError := by
  unfold pyInRange at h
  simp only [localIndex]
  rw [if_neg h]

/-- The central page-resolution lemma: on a consistent state, a valid
index is resolved to its local offset, the containing page becomes
resident, consistency is preserved, and if a swap occurred the outgoing
resident page was flushed to its page file first. -/
theorem localIndex_ok {s : FPS α} {l : List α} (hrep : represents s l)
    {i : Int} (hin : pyInRange l.length i) :
    ∃ s', localIndex s i = Except.ok
        ((((pyNorm l.length i).toNat % s.page_size.toNat : Nat) : Int), s') ∧
      represents s' l ∧
      s'.page_size = s.page_size ∧
      s'.cur_len = s.cur_len ∧
      s'.closed = s.closed ∧
      s'.cur_page_no =
        some (((pyNorm l.length i).toNat / s.page_size.toNat : Nat) : Int) ∧
      s'.cur_page_data = pageSlice l s.page_size.toNat
        ((pyNorm l.length i).toNat / s.page_size.toNat) ∧
      (∀ p, s.cur_page_no = some p → s'.cur_page_no ≠ some p →
        lookupFile s'.files p = some s.cur_page_data) := by
  obtain ⟨hps, hlen, hcl, hde, hfa, hres, hfiles⟩ := hrep
  obtain ⟨hin0, hin1⟩ := hin
  have hps1 : 1 ≤ s.page_size.toNat := by omega
  have hpscast : ((s.page_size.toNat : Nat) : Int) = s.page_size :=
    Int.toNat_of_nonneg (by omega)
  have hixcast : (((pyNorm l.length i).toNat : Nat) : Int) =
      pyNorm l.length i := Int.toNat_of_nonneg hin0
  have hixlt : (pyNorm l.length i).toNat < l.length := by omega
  have hdm : pyDivMod (pyNorm l.length i) s.page_size =
      Except.ok ((((pyNorm l.length i).toNat / s.page_size.toNat : Nat) : Int),
        (((pyNorm l.length i).toNat % s.page_size.toNat : Nat) : Int)) := by
    unfold pyDivMod
    rw [if_neg (by omega)]
    rw [← hixcast, ← hpscast, fdiv_natCast, fmod_natCast]
    simp only [Int.toNat_natCast]
  have hcond : 0 ≤ pyNorm s.cur_len i ∧
      pyNorm s.cur_len i < (s.cur_len : Int) := by
    rw [hlen]
    exact ⟨hin0, hin1⟩
  by_cases hpn :
      s.cur_page_no =
        some (((pyNorm l.length i).toNat / s.page_size.toNat : Nat) : Int)
  · -- the target page is already resident: no state change
    refine ⟨s, ?_, ?_, rfl, rfl, rfl, hpn, ?_, ?_⟩
    · simp only [localIndex]
      rw [if_pos hcond, hlen, hdm]
      simp [hpn]
    · exact ⟨hps, hlen, hcl, hde, hfa, hres, hfiles⟩
    · rw [hpn] at hres
      simp only at hres
      rw [hres.2, Int.toNat_natCast]
    · intro p hp hne
      exact absurd hp hne
  · -- swap: flush the resident page, then load the target page file
    rcases hcpn : s.cur_page_no with _ | p
    · rw [hcpn] at hres
      simp only at hres
      rw [hres.1] at hixlt
      simp at hixlt
    · rw [hcpn] at hres
      simp only at hres
      obtain ⟨hp0, hdata⟩ := hres
      have hsv := saveResident_some s p hcpn hde
      have hpne : p ≠ (((pyNorm l.length i).toNat / s.page_size.toNat :
          Nat) : Int) := by
        intro hcon
        rw [hcpn, hcon] at hpn
        exact hpn rfl
      have hq : ((pyNorm l.length i).toNat / s.page_size.toNat)
          * s.page_size.toNat < l.length :=
        lt_of_le_of_lt (Nat.div_mul_le_self _ _) hixlt
      have hlook : lookupFile s.files
          ((((pyNorm l.length i).toNat / s.page_size.toNat : Nat) : Int)) =
          some (pageSlice l s.page_size.toNat
            ((pyNorm l.length i).toNat / s.page_size.toNat)) := by
        apply hfiles _ hq
        rw [hcpn]
        intro hcon
        exact hpne (Option.some.inj hcon)
      have hlook2 : lookupFile
          (setFile s.files p s.cur_page_data)
          ((((pyNorm l.length i).toNat / s.page_size.toNat : Nat) : Int)) =
          some (pageSlice l s.page_size.toNat
            ((pyNorm l.length i).toNat / s.page_size.toNat)) := by
        rw [lookupFile_setFile_other _ _ hpne]
        exact hlook
      have hsw := switchTo_load s _ _ _ hsv rfl rfl hlook2
      refine ⟨{ s with
          cur_page_no := some (((pyNorm l.length i).toNat /
            s.page_size.toNat : Nat) : Int),
          cur_page_data := pageSlice l s.page_size.toNat
            ((pyNorm l.length i).toNat / s.page_size.toNat),
          files := setFile s.files p s.cur_page_data,
          dir_allocated := true, dir_exists := true },
        ?_, ?_, rfl, rfl, rfl, rfl, rfl, ?_⟩
      · simp only [localIndex]
        rw [if_pos hcond, hlen, hdm]
        simp only [hpn, ne_eq, not_false_iff, if_true, hsw]
        rw [hlen]
      · refine ⟨hps, hlen, hcl, rfl, Or.inr rfl, ?_, ?_⟩
        · simp only
          constructor
          · positivity
          · rw [Int.toNat_natCast]
        · intro q hql hqne
          simp only at hqne ⊢
          by_cases hqp : (q : Int) = p
          · rw [hqp, lookupFile_setFile_same, hdata]
            congr 1
            rw [← hqp, Int.toNat_natCast]
          · rw [lookupFile_setFile_other _ _ (fun hc => hqp hc.symm)]
            apply hfiles _ hql
            rw [hcpn]
            intro hcon
            exact hqp (Option.some.inj hcon).symm
      · intro p0 hp0eq hp0ne
        have : p0 = p := (Option.some.inj hp0eq).symm
        subst this
        simp only
        exact lookupFile_setFile_same _ _ _

/-! ### Python list access on page slices -/

theorem pyNorm_natCast (len : Nat) (m : Nat) :
    pyNorm len ((m : Nat) : Int) = ((m : Nat) : Int) := by
  unfold pyNorm
  rw [if_neg (by omega)]

theorem pyListGet_pageSlice {l : List α} {psN ixN : Nat} (hps : 0 < psN)
    (hix : ixN < l.length) :
    pyListGet (pageSlice l psN (ixN / psN)) (((ixN % psN : Nat) : Int)) =
      Except.ok (l.get ⟨ixN, hix⟩) := by
  have hmd : ixN / psN * psN + ixN % psN = ixN := by
    rw [Nat.mul_comm]; exact Nat.div_add_mod ixN psN
  have hml := Nat.mod_lt ixN hps
  have hlen := pageSlice_length l psN (ixN / psN)
  simp only [pyListGet, pyNorm_natCast]
  rw [if_pos ⟨by omega, by rw [hlen]; omega⟩]
  rw [Int.toNat_natCast, List.get?_eq_getElem?, pageSlice_getElem?,
    if_pos hml, hmd, List.getElem?_eq_getElem hix]
  rfl

theorem pyListSet_pageSlice {l : List α} {psN ixN : Nat} (v : α)
    (hps : 0 < psN) (hix : ixN < l.length) :
    pyListSet (pageSlice l psN (ixN / psN)) (((ixN % psN : Nat) : Int)) v =
      Except.ok ((pageSlice l psN (ixN / psN)).set (ixN % psN) v) := by
  have hmd : ixN / psN * psN + ixN % psN = ixN := by
    rw [Nat.mul_comm]; exact Nat.div_add_mod ixN psN
  have hml := Nat.mod_lt ixN hps
  have hlen := pageSlice_length l psN (ixN / psN)
  simp only [pyListSet, pyNorm_natCast]
  rw [if_pos ⟨by omega, by rw [hlen]; omega⟩]
  rw [Int.toNat_natCast]

theorem pyListPop_last (d : List α) (hne : d ≠ []) :
    pyListPop d (((d.length - 1 : Nat) : Int)) =
      Except.ok (d.getLast hne, d.dropLast) := by
  have hlen : 1 ≤ d.length := List.length_pos.mpr hne
  simp only [pyListPop, pyNorm_natCast]
  rw [if_pos ⟨by omega, by omega⟩]
  rw [Int.toNat_natCast, List.get?_eq_getElem?,
    List.getElem?_eq_getElem (by omega), eraseIdx_last d hne,
    List.getLast_eq_getElem]

/-! ### `__getitem__` and `__setitem__` -/

theorem getItem_err (s : FPS α) (i : Int)
    (h : ¬ pyInRange s.cur_len i) :
    getItem s i = Except.error Err.indexError := by
  unfold getItem
  rw [localIndex_err s i h]

theorem setItem_err (s : FPS α) (i : Int) (v : α)
    (h : ¬ pyInRange s.cur_len i) :
    setItem s i v = Except.error Err.indexError := by
  unfold setItem
  rw [localIndex_err s i h]

/-- On a consistent state, `get` at a valid (possibly negative) index
returns the item at the normalized position, preserves consistency, and
flushes the outgoing page when the access swaps pages. -/
theorem getItem_ok {s : FPS α} {l : List α} (hrep : represents s l)
    {i : Int} (hin : pyInRange l.length i) :
    ∃ x s', getItem s i = Except.ok (x, s') ∧
      l.get? (pyNorm l.length i).toNat = some x ∧
      represents s' l ∧
      s'.page_size = s.page_size ∧
      s'.cur_len = s.cur_len ∧
      s'.closed = s.closed ∧
      (∀ p, s.cur_page_no = some p → s'.cur_page_no ≠ some p →
        lookupFile s'.files p = some s.cur_page_data) := by
  obtain ⟨s', heval, hrep', hps', hlen', hcl', hpn', hdata', hflush⟩ :=
    localIndex_ok hrep hin
  have hps1 : 0 < s.page_size.toNat := by
    obtain ⟨hps, -⟩ := hrep
    omega
  have hixlt : (pyNorm l.length i).toNat < l.length := by
    obtain ⟨hin0, hin1⟩ := hin
    omega
  refine ⟨l.get ⟨(pyNorm l.length i).toNat, hixlt⟩, s', ?_,
    List.get?_eq_get hixlt, hrep', hps', hlen', hcl', hflush⟩
  unfold getItem
  rw [heval]
  simp only []
  rw [hdata', pyListGet_pageSlice hps1 hixlt]

/-- Rebuilding a consistent state after overwriting the resident page
with the matching slice of an updated logical list. -/
theorem represents_set_data {s : FPS α} {l l' : List α} {P : Nat}
    {d : List α} (hrep : represents s l)
    (hpn : s.cur_page_no = some ((P : Nat) : Int))
    (hlen : l'.length = l.length)
    (hd : d = pageSlice l' s.page_size.toNat P)
    (hsl : ∀ q : Nat, q ≠ P → q * s.page_size.toNat < l.length →
      pageSlice l' s.page_size.toNat q = pageSlice l s.page_size.toNat q) :
    represents { s with cur_page_data := d } l' := by
  obtain ⟨hps, hlen0, hcl, hde, hfa, hres, hfiles⟩ := hrep
  refine ⟨hps, ?_, hcl, hde, hfa, ?_, ?_⟩
  · rw [hlen]
    exact hlen0
  · simp only [hpn]
    exact ⟨by positivity, by rw [hd, Int.toNat_natCast]⟩
  · intro q hql hqne
    simp only [hpn] at hqne
    rw [hlen] at hql
    have hqP : q ≠ P := by
      intro hqp
      rw [hqp] at hqne
      exact hqne rfl
    simp only []
    rw [hsl q hqP hql]
    apply hfiles q hql
    rw [hpn]
    intro hcon
    exact hqP (Nat.cast_inj.mp (Option.some.inj hcon).symm)

/-- On a consistent state, `set` at a valid (possibly negative) index
overwrites the item at the normalized position and preserves
consistency with respect to the updated logical list. -/
theorem setItem_ok {s : FPS α} {l : List α} (hrep : represents s l)
    {i : Int} (hin : pyInRange l.length i) (v : α) :
    ∃ s', setItem s i v = Except.ok s' ∧
      represents s' (l.set (pyNorm l.length i).toNat v) ∧
      s'.page_size = s.page_size ∧
      s'.cur_len = s.cur_len ∧
      s'.closed = s.closed := by
  obtain ⟨s', heval, hrep', hps', hlen', hcl', hpn', hdata', hflush⟩ :=
    localIndex_ok hrep hin
  have hps1 : 0 < s.page_size.toNat := by
    obtain ⟨hps, -⟩ := hrep
    omega
  have hixlt : (pyNorm l.length i).toNat < l.length := by
    obtain ⟨hin0, hin1⟩ := hin
    omega
  have hslset := pageSlice_set_same l v hps1 hixlt
  have heval2 : setItem s i v = Except.ok { s' with
      cur_page_data := List.set
        (pageSlice l s.page_size.toNat
          ((pyNorm l.length i).toNat / s.page_size.toNat))
        ((pyNorm l.length i).toNat % s.page_size.toNat) v } := by
    unfold setItem
    rw [heval]
    simp only []
    rw [hdata', pyListSet_pageSlice v hps1 hixlt]
  refine ⟨_, heval2, ?_, hps', hlen', hcl'⟩
  refine represents_set_data hrep' hpn' (by rw [List.length_set]) ?_ ?_
  · rw [hps', hslset]
  · intro q hqP hql
    rw [hps']
    exact pageSlice_set_other l v hps1 hqP

/-! ### `append` -/

theorem page_arith {psN q n : Nat} (hps : 0 < psN)
    (hq : q * psN < n + 1) (hne : q ≠ n / psN) :
    q * psN + psN ≤ n ∧ q * psN < n := by
  have hmd : n / psN * psN + n % psN = n := by
    rw [Nat.mul_comm]; exact Nat.div_add_mod n psN
  have hml := Nat.mod_lt n hps
  rcases Nat.lt_or_ge q (n / psN) with hlt | hge
  · have h2 : (q + 1) * psN ≤ n / psN * psN := Nat.mul_le_mul_right psN hlt
    rw [Nat.add_mul, Nat.one_mul] at h2
    omega
  · have hgt : n / psN + 1 ≤ q := by omega
    have h2 : (n / psN + 1) * psN ≤ q * psN := Nat.mul_le_mul_right psN hgt
    rw [Nat.add_mul, Nat.one_mul] at h2
    omega

/-- On a consistent state, `append` succeeds, extends the logical list
at the tail, makes the page containing the new item resident, and
touches the filesystem only when it must flush an outgoing resident
page (which also allocates the backing directory). -/
theorem append_ok {s : FPS α} {l : List α} (hrep : represents s l)
    (v : α) :
    ∃ s', append s v = Except.ok s' ∧
      represents s' (l ++ [v]) ∧
      s'.page_size = s.page_size ∧
      s'.cur_len = s.cur_len + 1 ∧
      s'.closed = s.closed ∧
      s'.cur_page_no = some ((l.length / s.page_size.toNat : Nat) : Int) ∧
      (s.dir_allocated = true → s'.dir_allocated = true) ∧
      ((s.cur_page_no = some ((l.length / s.page_size.toNat : Nat) : Int) ∨
          s.cur_page_no = none) →
        s'.files = s.files ∧ s'.dir_allocated = s.dir_allocated ∧
        s'.dir_exists = s.dir_exists) ∧
      ((s.cur_page_no ≠ some ((l.length / s.page_size.toNat : Nat) : Int) ∧
          s.cur_page_no ≠ none) →
        s'.dir_allocated = true) := by
  obtain ⟨hps, hlen, hcl, hde, hfa, hres, hfiles⟩ := hrep
  have hps1 : 0 < s.page_size.toNat := by omega
  have hpscast : ((s.page_size.toNat : Nat) : Int) = s.page_size :=
    Int.toNat_of_nonneg (by omega)
  have hmd : l.length / s.page_size.toNat * s.page_size.toNat +
      l.length % s.page_size.toNat = l.length := by
    rw [Nat.mul_comm]; exact Nat.div_add_mod _ _
  have hml := Nat.mod_lt l.length hps1
  have hdm : pyDivMod ((s.cur_len : Nat) : Int) s.page_size =
      Except.ok (((l.length / s.page_size.toNat : Nat) : Int),
        ((l.length % s.page_size.toNat : Nat) : Int)) := by
    rw [hlen]
    unfold pyDivMod
    rw [if_neg (by omega), ← hpscast, fdiv_natCast, fmod_natCast]
    simp only [Int.toNat_natCast]
  by_cases hpn : s.cur_page_no =
      some ((l.length / s.page_size.toNat : Nat) : Int)
  · -- the target page is already resident: no swap, pure in-memory append
    have hresP : s.cur_page_data = pageSlice l s.page_size.toNat
        (l.length / s.page_size.toNat) := by
      rw [hpn] at hres
      simp only at hres
      rw [hres.2, Int.toNat_natCast]
    refine ⟨{ s with
        cur_page_data := s.cur_page_data ++ [v],
        cur_len := s.cur_len + 1 }, ?_, ?_, rfl, rfl, rfl, hpn,
      fun h => h, fun _ => ⟨rfl, rfl, rfl⟩, fun h => absurd hpn h.1⟩
    · unfold append
      rw [hdm]
      simp [hpn]
    · refine ⟨hps, by simp [hlen], hcl, hde, hfa, ?_, ?_⟩
      · simp only [hpn]
        refine ⟨by positivity, ?_⟩
        rw [Int.toNat_natCast, pageSlice_append_last l v hps1, hresP]
      · intro q hq hqne
        simp only [hpn, List.length_append, List.length_singleton] at hq hqne
        have hqP : q ≠ l.length / s.page_size.toNat := by
          intro hcon
          rw [hcon] at hqne
          exact hqne rfl
        obtain ⟨ha1, ha2⟩ := page_arith hps1 hq hqP
        simp only []
        rw [pageSlice_append_other l v ha1]
        apply hfiles q ha2
        rw [hpn]
        intro hcon
        exact hqP (Nat.cast_inj.mp (Option.some.inj hcon).symm)
  · rcases hcpn : s.cur_page_no with _ | p
    · -- empty sequence: first append initializes page 0, no disk access
      rw [hcpn] at hres
      simp only at hres
      obtain ⟨hl0, hd0⟩ := hres
      subst hl0
      simp only [List.length_nil, Nat.zero_div, Nat.zero_mod,
        Nat.cast_zero] at hdm ⊢
      have hsw := switchTo_new s 0 s (saveResident_none s hcpn)
      refine ⟨{ s with
          cur_page_no := some 0,
          cur_page_data := [] ++ [v],
          cur_len := s.cur_len + 1 }, ?_, ?_, rfl, rfl, rfl, rfl,
        fun h => h, fun _ => ⟨rfl, rfl, rfl⟩, fun h => absurd rfl h.2⟩
      · unfold append
        rw [hdm]
        simp [hcpn, hsw]
      · refine ⟨hps, by simp [hlen], hcl, hde, hfa, ?_, ?_⟩
        · refine ⟨le_refl 0, ?_⟩
          have h1 : ([v] : List α).length ≤ s.page_size.toNat := by
            simp only [List.length_singleton]
            omega
          simp [pageSlice, List.take_of_length_le h1]
        · intro q hq hqne
          simp only [List.length_append, List.length_singleton,
            List.length_nil, Nat.zero_add] at hq
          exfalso
          have hq0 : q = 0 := by
            by_contra hq0
            have : 1 * s.page_size.toNat ≤ q * s.page_size.toNat :=
              Nat.mul_le_mul_right _ (by omega)
            omega
          rw [hq0] at hqne
          exact hqne (by simp)
    · -- a different page is resident: flush it, then new page or load
      rw [hcpn] at hres
      simp only at hres
      obtain ⟨hp0, hdata⟩ := hres
      have hne : p ≠ ((l.length / s.page_size.toNat : Nat) : Int) := by
        intro hcon
        rw [hcpn, hcon] at hpn
        exact hpn rfl
      have hsv := saveResident_some s p hcpn hde
      have hfilesNew : ∀ q : Nat, q * s.page_size.toNat < l.length + 1 →
          q ≠ l.length / s.page_size.toNat →
          lookupFile (setFile s.files p s.cur_page_data) ((q : Nat) : Int) =
            some (pageSlice (l ++ [v]) s.page_size.toNat q) := by
        intro q hq hqP
        obtain ⟨ha1, ha2⟩ := page_arith hps1 hq hqP
        rw [pageSlice_append_other l v ha1]
        by_cases hqp : ((q : Nat) : Int) = p
        · rw [hqp, lookupFile_setFile_same, hdata]
          congr 1
          rw [← hqp, Int.toNat_natCast]
        · rw [lookupFile_setFile_other _ _ (fun hc => hqp hc.symm)]
          apply hfiles q ha2
          rw [hcpn]
          intro hcon
          exact hqp (Option.some.inj hcon).symm
      by_cases hL : l.length % s.page_size.toNat = 0
      · -- page boundary: flush, then start a fresh page holding only v
        have hnw : decide ((((l.length % s.page_size.toNat : Nat)) : Int)
            = 0) = true := by
          rw [hL]
          rfl
        have hsw := switchTo_new s
          ((l.length / s.page_size.toNat : Nat) : Int) _ hsv
        have hsliceP : pageSlice l s.page_size.toNat
            (l.length / s.page_size.toNat) = [] := by
          unfold pageSlice
          rw [show l.length / s.page_size.toNat * s.page_size.toNat
            = l.length from by omega]
          rw [List.drop_length, List.take_nil]
        refine ⟨{ s with
            files := setFile s.files p s.cur_page_data,
            dir_allocated := true, dir_exists := true,
            cur_page_no := some ((l.length / s.page_size.toNat : Nat) : Int),
            cur_page_data := [] ++ [v],
            cur_len := s.cur_len + 1 }, ?_, ?_, rfl, rfl, rfl, rfl,
          fun _ => rfl, ?_, fun _ => rfl⟩
        · unfold append
          rw [hdm]
          simp only [hcpn, ne_eq, Option.some.injEq, hne,
            not_false_iff, if_true, hnw, hsw]
        · refine ⟨hps, by simp [hlen], hcl, rfl, Or.inr rfl, ?_, ?_⟩
          · refine ⟨by positivity, ?_⟩
            rw [Int.toNat_natCast, pageSlice_append_last l v hps1, hsliceP]
          · intro q hq hqne
            simp only [List.length_append, List.length_singleton] at hq
            have hqP : q ≠ l.length / s.page_size.toNat := by
              intro hcon
              rw [hcon] at hqne
              exact hqne rfl
            exact hfilesNew q hq hqP
        · intro h
          exfalso
          rcases h with h | h
          · exact hne (Option.some.inj h)
          · exact Option.noConfusion h
      · -- middle of the last page: flush, then load the target page file
        have hnw : decide ((((l.length % s.page_size.toNat : Nat)) : Int)
            = 0) = false := by
          exact decide_eq_false (fun hcon => hL (Nat.cast_eq_zero.mp hcon))
        have hPreal : l.length / s.page_size.toNat * s.page_size.toNat
            < l.length := by omega
        have hlook : lookupFile (setFile s.files p s.cur_page_data)
            ((l.length / s.page_size.toNat : Nat) : Int) =
            some (pageSlice l s.page_size.toNat
              (l.length / s.page_size.toNat)) := by
          rw [lookupFile_setFile_other _ _ hne]
          apply hfiles _ hPreal
          rw [hcpn]
          intro hcon
          exact hne (Option.some.inj hcon)
        have hsw := switchTo_load s
          ((l.length / s.page_size.toNat : Nat) : Int) _ _ hsv rfl rfl hlook
        refine ⟨{ s with
            files := setFile s.files p s.cur_page_data,
            dir_allocated := true, dir_exists := true,
            cur_page_no := some ((l.length / s.page_size.toNat : Nat) : Int),
            cur_page_data := pageSlice l s.page_size.toNat
              (l.length / s.page_size.toNat) ++ [v],
            cur_len := s.cur_len + 1 }, ?_, ?_, rfl, rfl, rfl, rfl,
          fun _ => rfl, ?_, fun _ => rfl⟩
        · unfold append
          rw [hdm]
          simp only [hcpn, ne_eq, Option.some.injEq, hne,
            not_false_iff, if_true, hnw, hsw]
        · refine ⟨hps, by simp [hlen], hcl, rfl, Or.inr rfl, ?_, ?_⟩
          · refine ⟨by positivity, ?_⟩
            rw [Int.toNat_natCast, pageSlice_append_last l v hps1]
          · intro q hq hqne
            simp only [List.length_append, List.length_singleton] at hq
            have hqP : q ≠ l.length / s.page_size.toNat := by
              intro hcon
              rw [hcon] at hqne
              exact hqne rfl
            exact hfilesNew q hq hqP
        · intro h
          exfalso
          rcases h with h | h
          · exact hne (Option.some.inj h)
          · exact Option.noConfusion h

/-! ### `pop` -/

theorem pop_not_neg_one (s : FPS α) {i : Int} (h : i ≠ -1) :
    pop s i = Except.error Err.notImplemented := by
  unfold pop
  rw [if_pos h]

theorem pop_empty (s : FPS α) (h : s.cur_len = 0) :
    pop s (-1) = Except.error Err.indexError := by
  unfold pop
  rw [if_neg (by simp), localIndex_err s (-1) (by rw [h]; decide)]

/-- On a consistent non-empty state, `pop()` (default index `-1`)
removes and returns the last item and preserves consistency with the
shortened logical list. -/
theorem pop_ok {s : FPS α} {l : List α} (hrep : represents s l)
    (hne : l ≠ []) :
    ∃ s', pop s (-1) = Except.ok (l.getLast hne, s') ∧
      represents s' l.dropLast ∧
      s'.page_size = s.page_size ∧
      s'.cur_len = s.cur_len - 1 ∧
      s'.closed = s.closed := by
  have hlpos : 1 ≤ l.length := List.length_pos.mpr hne
  have hps1 : 0 < s.page_size.toNat := by
    have := hrep.1
    omega
  have hin : pyInRange l.length (-1) := by
    unfold pyInRange pyNorm
    rw [if_pos (by decide)]
    omega
  have hnorm : (pyNorm l.length (-1)).toNat = l.length - 1 := by
    unfold pyNorm
    rw [if_pos (by decide)]
    omega
  have hmd : (l.length - 1) / s.page_size.toNat * s.page_size.toNat +
      (l.length - 1) % s.page_size.toNat = l.length - 1 := by
    rw [Nat.mul_comm]; exact Nat.div_add_mod _ _
  have hml := Nat.mod_lt (l.length - 1) hps1
  obtain ⟨s', heval, hrep', hps', hlen', hcl', hpn', hdata', hflush⟩ :=
    localIndex_ok hrep hin
  rw [hnorm] at heval hpn' hdata'
  have hdlen : s'.cur_page_data.length =
      (l.length - 1) % s.page_size.toNat + 1 := by
    rw [hdata', pageSlice_length]
    omega
  have hdne : s'.cur_page_data ≠ [] := by
    intro hcon
    rw [hcon] at hdlen
    simp at hdlen
  have hcastlen : ((((l.length - 1) % s.page_size.toNat : Nat)) : Int) =
      (((s'.cur_page_data.length - 1 : Nat)) : Int) := by
    rw [hdlen]
    simp
  have hpopd := pyListPop_last s'.cur_page_data hdne
  have hlast : s'.cur_page_data.getLast hdne = l.getLast hne := by
    have h1 : s'.cur_page_data[s'.cur_page_data.length - 1]? =
        l[l.length - 1]? := by
      rw [hdlen, hdata', pageSlice_getElem?]
      simp only [Nat.add_sub_cancel]
      rw [if_pos hml, hmd]
    rw [List.getElem?_eq_getElem (by omega),
      List.getElem?_eq_getElem (by omega)] at h1
    rw [List.getLast_eq_getElem, List.getLast_eq_getElem]
    exact Option.some.inj h1
  have hdrop : s'.cur_page_data.dropLast =
      pageSlice l.dropLast s.page_size.toNat
        ((l.length - 1) / s.page_size.toNat) := by
    rw [hdata', pageSlice_dropLast_last l hps1 hne]
  refine ⟨{ s' with
      cur_page_data := s'.cur_page_data.dropLast,
      cur_len := s'.cur_len - 1 }, ?_, ?_, hps', by rw [hlen'], hcl'⟩
  · unfold pop
    rw [if_neg (by simp), heval]
    simp only []
    rw [hcastlen, hpopd, hlast]
  · obtain ⟨hps2, hlen2, hcl2, hde2, hfa2, hres2, hfiles2⟩ := hrep'
    have hfiles3 := hfiles2
    rw [hps'] at hfiles3
    refine ⟨hps2, ?_, hcl2, hde2, hfa2, ?_, ?_⟩
    · rw [List.length_dropLast, hlen2]
    · simp only [hpn']
      refine ⟨by positivity, ?_⟩
      rw [hps', Int.toNat_natCast, hdrop]
    · intro q hql hqne
      simp only [hpn', List.length_dropLast] at hql hqne
      rw [hps'] at hql
      have hqP : q ≠ (l.length - 1) / s.page_size.toNat := by
        intro hcon
        rw [hcon] at hqne
        exact hqne rfl
      have hq2 : q * s.page_size.toNat < (l.length - 1) + 1 := by omega
      obtain ⟨ha1, ha2⟩ := page_arith hps1 hq2 hqP
      simp only []
      rw [List.dropLast_eq_take, hps', pageSlice_take l ha1]
      apply hfiles3 q (by omega)
      rw [hpn']
      intro hcon
      exact hqP (Nat.cast_inj.mp (Option.some.inj hcon).symm)

/-! ### Iteration, series of reads, extension, construction -/

theorem iterGo_ok {l : List α} : ∀ (n i : Nat) (s : FPS α),
    represents s l → i + n = l.length →
    ∃ s', iterGo s i n = Except.ok ((l.drop i).take n, s') ∧
      represents s' l ∧ s'.cur_len = s.cur_len := by
  intro n
  induction n with
  | zero =>
      intro i s hrep hi
      exact ⟨s, by simp [iterGo], hrep, rfl⟩
  | succ n ih =>
      intro i s hrep hi
      have hilt : i < l.length := by omega
      have hin : pyInRange l.length ((i : Nat) : Int) := by
        unfold pyInRange
        rw [pyNorm_natCast]
        constructor
        · positivity
        · exact_mod_cast hilt
      obtain ⟨x, s', heval, hget, hrep', hps', hlen', hcl', hflush⟩ :=
        getItem_ok hrep hin
      rw [pyNorm_natCast, Int.toNat_natCast,
        List.get?_eq_getElem?, List.getElem?_eq_getElem hilt] at hget
      obtain ⟨s'', hgo, hrep'', hlen''⟩ := ih (i + 1) s' hrep' (by omega)
      refine ⟨s'', ?_, hrep'', by rw [hlen'', hlen']⟩
      simp only [iterGo]
      rw [heval]
      simp only []
      rw [hgo]
      rw [List.drop_eq_getElem_cons hilt, List.take_succ_cons,
        Option.some.inj hget]

theorem iterate_ok {s : FPS α} {l : List α} (hrep : represents s l) :
    ∃ s', iterate s = Except.ok (l, s') ∧ represents s' l ∧
      s'.cur_len = s.cur_len := by
  obtain ⟨s', hgo, hrep', hlen'⟩ := iterGo_ok l.length 0 s hrep (by omega)
  rw [List.drop_zero, List.take_length] at hgo
  refine ⟨s', ?_, hrep', hlen'⟩
  unfold iterate
  rw [hrep.2.1, hgo]

theorem getSeries_ok {l : List α} : ∀ (ks : List Int) (s : FPS α),
    represents s l → (∀ k ∈ ks, pyInRange l.length k) →
    ∃ vs s', getSeries s ks = Except.ok (vs, s') ∧
      represents s' l ∧ s'.cur_len = s.cur_len := by
  intro ks
  induction ks with
  | nil =>
      intro s hrep hks
      exact ⟨[], s, rfl, hrep, rfl⟩
  | cons k ks ih =>
      intro s hrep hks
      obtain ⟨x, s', heval, hget, hrep', hps', hlen', hcl', -⟩ :=
        getItem_ok hrep (hks k (by simp))
      obtain ⟨vs, s'', hgo, hrep'', hlen''⟩ := ih s' hrep'
        (fun k2 hk2 => hks k2 (by simp [hk2]))
      refine ⟨x :: vs, s'', ?_, hrep'', by rw [hlen'', hlen']⟩
      simp only [getSeries]
      rw [heval]
      simp only []
      rw [hgo]

theorem represents_mkFPS (ps : Int) (hps : 1 ≤ ps) :
    represents (mkFPS α ps) [] := by
  refine ⟨hps, rfl, rfl, rfl, Or.inl rfl, ⟨rfl, rfl⟩, ?_⟩
  intro q hq hqn
  simp at hq

theorem extendFPS_ok : ∀ (l : List α) (l0 : List α) (s : FPS α),
    represents s l0 →
    ∃ s', extendFPS s l = Except.ok s' ∧ represents s' (l0 ++ l) := by
  intro l
  induction l with
  | nil =>
      intro l0 s hrep
      exact ⟨s, rfl, by simpa using hrep⟩
  | cons v rest ih =>
      intro l0 s hrep
      obtain ⟨s', heval, hrep', -⟩ := append_ok hrep v
      obtain ⟨s'', hext, hrep''⟩ := ih (l0 ++ [v]) s' hrep'
      rw [List.append_assoc, List.singleton_append] at hrep''
      refine ⟨s'', ?_, hrep''⟩
      simp only [extendFPS]
      rw [heval]
      exact hext

theorem construct_ok (l : List α) (ps : Int) (hps : 1 ≤ ps) :
    ∃ s, construct l ps = Except.ok s ∧ represents s l := by
  obtain ⟨s, h1, h2⟩ := extendFPS_ok l [] (mkFPS α ps) (represents_mkFPS ps hps)
  exact ⟨s, h1, by simpa using h2⟩

theorem extendFPS_consInv : ∀ (l : List α) (l0 : List α) (s : FPS α),
    represents s l0 → consInv s.page_size.toNat l0.length s →
    ∃ s', extendFPS s l = Except.ok s' ∧ represents s' (l0 ++ l) ∧
      s'.page_size = s.page_size ∧
      consInv s.page_size.toNat (l0.length + l.length) s' := by
  intro l
  induction l with
  | nil =>
      intro l0 s hrep hinv
      exact ⟨s, rfl, by simpa using hrep, rfl, by simpa using hinv⟩
  | cons v rest ih =>
      intro l0 s hrep hinv
      have hps1 : 0 < s.page_size.toNat := by
        have := hrep.1
        omega
      obtain ⟨hpn0, hsmall, hbig⟩ := hinv
      obtain ⟨s1, heval, hrep1, hps1', hlen1, hcl1, hpn1, hmono,
        hframe, halloc⟩ := append_ok hrep v
      have hinv1 : consInv s.page_size.toNat (l0.length + 1) s1 := by
        refine ⟨by rw [hpn1]; simp, ?_, ?_⟩
        · intro hle
          have hlt : l0.length < s.page_size.toNat := by omega
          have hsm := hsmall (by omega)
          have hfr : s1.files = s.files ∧
              s1.dir_allocated = s.dir_allocated ∧
              s1.dir_exists = s.dir_exists := by
            apply hframe
            rcases Nat.eq_zero_or_pos l0.length with h0 | h0
            · right
              rw [hpn0, if_pos h0]
            · left
              rw [hpn0, if_neg (by omega)]
              have e1 : (l0.length - 1) / s.page_size.toNat = 0 :=
                Nat.div_eq_of_lt (by omega)
              have e2 : l0.length / s.page_size.toNat = 0 :=
                Nat.div_eq_of_lt hlt
              rw [e1, e2]
          rw [hfr.1, hfr.2.1]
          exact hsm
        · intro hgt
          rcases Nat.lt_or_ge s.page_size.toNat l0.length with h1 | h1
          · exact hmono (hbig h1)
          · have heq : l0.length = s.page_size.toNat := by omega
            apply halloc
            constructor
            · rw [hpn0, if_neg (by omega)]
              intro hcon
              have e1 : (l0.length - 1) / s.page_size.toNat = 0 :=
                Nat.div_eq_of_lt (by omega)
              have e2 : l0.length / s.page_size.toNat = 1 := by
                rw [heq]
                exact Nat.div_self hps1
              rw [e1, e2] at hcon
              have := Option.some.inj hcon
              norm_num at this
            · rw [hpn0, if_neg (by omega)]
              simp
      obtain ⟨s2, hext, hrep2, hps2, hinv2⟩ := ih (l0 ++ [v]) s1 hrep1
        (by rw [hps1', List.length_append, List.length_singleton]; exact hinv1)
      rw [List.append_assoc, List.singleton_append] at hrep2
      refine ⟨s2, ?_, hrep2, by rw [hps2, hps1'], ?_⟩
      · simp only [extendFPS]
        rw [heval]
        exact hext
      · rw [hps1'] at hinv2
        rw [List.length_append, List.length_singleton] at hinv2
        have harr : l0.length + 1 + rest.length
            = l0.length + (rest.length + 1) := by omega
        rw [harr] at hinv2
        simpa using hinv2

theorem construct_consInv (l : List α) (ps : Int) (hps : 1 ≤ ps) :
    ∃ s, construct l ps = Except.ok s ∧ represents s l ∧
      consInv ps.toNat l.length s := by
  have hinv0 : consInv ((mkFPS α ps).page_size.toNat) 0 (mkFPS α ps) :=
    ⟨rfl, fun _ => ⟨rfl, rfl⟩, fun h => absurd h (by omega)⟩
  obtain ⟨s, h1, h2, h3, h4⟩ := extendFPS_consInv l [] (mkFPS α ps)
    (represents_mkFPS ps hps) hinv0
  exact ⟨s, h1, by simpa using h2, by simpa using h4⟩

/-! ### `clear` and `close` -/

theorem close_idem (s : FPS α) : close (close s) = close s := by
  obtain ⟨ps, cl, cpn, cpd, c, fs, da, de⟩ := s
  cases c <;> cases da <;> simp [close, clearFPS, filesystemUsed]

theorem close_spec {s : FPS α} {l : List α} (hrep : represents s l) :
    (close s).cur_len = 0 ∧ (close s).cur_page_data = [] ∧
    (close s).cur_page_no = none ∧ (close s).files = [] ∧
    (close s).dir_exists = false ∧ (close s).closed = true := by
  obtain ⟨hps, hlen, hcl, hde, hfa, hres, hfiles⟩ := hrep
  obtain ⟨ps, cl, cpn, cpd, c, fs, da, de⟩ := s
  simp only at hcl hde hfa
  subst hcl
  subst hde
  cases de
  · rcases hfa with hfs | hfa2
    · subst hfs
      simp [close, clearFPS, filesystemUsed]
    · exact absurd hfa2 (by simp)
  · simp [close, clearFPS, filesystemUsed]

/-! ### A concrete mid-life state -/

theorem sEx_repr : represents sEx [10, 20, 30, 40] := by
  refine ⟨by decide, rfl, rfl, rfl, Or.inr rfl, ⟨by decide, by decide⟩, ?_⟩
  intro q hq hqn
  simp only [sEx, List.length_cons, List.length_nil] at hq
  have h3 : (3 : Int).toNat = 3 := rfl
  rw [h3] at hq
  have hq2 : q = 0 ∨ q = 1 := by omega
  rcases hq2 with h | h <;> subst h
  · decide
  · exfalso
    apply hqn
    decide

/-! ### The claims -/

/-- C1: for every item list and every `page_size ≥ 1`, building the
sequence by appending the items one by one (`construct` extends the
empty sequence via repeated `append`) and then running `iterate` yields
exactly the original items in order — the page size never affects the
observable output. -/
theorem c1_iterate_reproduces_items {α : Type} (l : List α) (ps : Int)
    (hps : 1 ≤ ps) :
    ∃ s s', construct l ps = Except.ok s ∧
      iterate s = Except.ok (l, s') := by
  obtain ⟨s, hc, hrep⟩ := construct_ok l ps hps
  obtain ⟨s', hit, -, -⟩ := iterate_ok hrep
  exact ⟨s, s', hc, hit⟩

/-- Witness for C1 at `[10, 20, 30, 40]` with page size `3`. -/
theorem c1_witness :
    ∃ s s', construct [10, 20, 30, 40] (3 : Int) = Except.ok s ∧
      iterate s = Except.ok ([10, 20, 30, 40], s') :=
  c1_iterate_reproduces_items [10, 20, 30, 40] 3 (by decide)

/-- C2 counterexample: on the one-item sequence `[7]` the last logical
position is also denoted by the positive index `length - 1 = 0`, yet
`pop 0` does not remove and return the last item as the claim states —
it fails with the unsupported-operation kind (`NotImplementedError`),
because the code accepts only the literal index `-1`. -/
theorem c2_counterexample :
    ∃ s : FPS Nat, construct [7] 3 = Except.ok s ∧ lenFPS s = 1 ∧
      pop s 0 = Except.error Err.notImplemented ∧
      Err.notImplemented ≠ Err.indexError :=
  ⟨_, rfl, rfl, rfl, by decide⟩

/-- C2 (amended): `pop` accepts only the literal index `-1` (the
omitted-argument default, which denotes the last logical position); on
a non-empty sequence `pop (-1)` removes and returns the last item and
shrinks the length by one, while any other index value — including the
positive index `length - 1` — fails with the unsupported-operation
kind. -/
theorem c2_pop_amended {α : Type} {s : FPS α} {l : List α}
    (hrep : represents s l) (hne : l ≠ []) :
    (∀ i : Int, i ≠ -1 → pop s i = Except.error Err.notImplemented) ∧
    ∃ s', pop s (-1) = Except.ok (l.getLast hne, s') ∧
      lenFPS s' = l.length - 1 := by
  constructor
  · intro i hi
    exact pop_not_neg_one s hi
  · obtain ⟨s', hp, hrep', -, hlen', -⟩ := pop_ok hrep hne
    refine ⟨s', hp, ?_⟩
    unfold lenFPS
    rw [hlen', hrep.2.1]

/-- Witness for the amended C2 at the sample mid-life state. -/
theorem c2_witness :
    (∀ i : Int, i ≠ -1 → pop sEx i = Except.error Err.notImplemented) ∧
    ∃ s', pop sEx (-1) =
        Except.ok (([10, 20, 30, 40] : List Nat).getLast (by decide), s') ∧
      lenFPS s' = ([10, 20, 30, 40] : List Nat).length - 1 :=
  c2_pop_amended sEx_repr (by decide)

/-- C3: on a consistent state (the state holds exactly one in-memory
page, and `represents` demands every logically existing non-resident
page be present as a page file with its current items), every completed
operation yields a consistent state again; moreover a `get` whose
access swaps pages always serializes the outgoing resident page to its
file first, even though the access is a pure read — only the resident
page's own file may be stale. -/
theorem c3_invariant_preserved {α : Type} {s : FPS α} {l : List α}
    (hrep : represents s l) :
    (∀ v : α, ∃ s', append s v = Except.ok s' ∧
      represents s' (l ++ [v])) ∧
    (∀ (i : Int) (v : α) s', setItem s i v = Except.ok s' →
      ∃ l', l'.length = l.length ∧ represents s' l') ∧
    (∀ (i : Int) x s', getItem s i = Except.ok (x, s') →
      represents s' l) ∧
    (∀ x s', pop s (-1) = Except.ok (x, s') →
      represents s' l.dropLast) ∧
    (∀ (i : Int) x s' p, getItem s i = Except.ok (x, s') →
      s.cur_page_no = some p → s'.cur_page_no ≠ some p →
      lookupFile s'.files p = some s.cur_page_data) := by
  have hlen0 := hrep.2.1
  refine ⟨?_, ?_, ?_, ?_, ?_⟩
  · intro v
    obtain ⟨s', h1, h2, -⟩ := append_ok hrep v
    exact ⟨s', h1, h2⟩
  · intro i v s' hset
    by_cases hin : pyInRange l.length i
    · obtain ⟨s'', h1, h2, -⟩ := setItem_ok hrep hin v
      have h3 : s'' = s' := Except.ok.inj (h1 ▸ hset)
      subst h3
      exact ⟨l.set (pyNorm l.length i).toNat v, by rw [List.length_set], h2⟩
    · rw [setItem_err s i v (by rw [hlen0]; exact hin)] at hset
      exact absurd hset (by simp)
  · intro i x s' hget
    by_cases hin : pyInRange l.length i
    · obtain ⟨x2, s'', h1, -, h2, -⟩ := getItem_ok hrep hin
      have h3 : (x2, s'') = (x, s') := Except.ok.inj (h1 ▸ hget)
      obtain ⟨-, hs⟩ := Prod.mk.inj h3
      subst hs
      exact h2
    · rw [getItem_err s i (by rw [hlen0]; exact hin)] at hget
      exact absurd hget (by simp)
  · intro x s' hpop
    by_cases hne : l = []
    · subst hne
      rw [pop_empty s (by rw [hlen0]; rfl)] at hpop
      exact absurd hpop (by simp)
    · obtain ⟨s'', h1, h2, -⟩ := pop_ok hrep hne
      have h3 : (l.getLast hne, s'') = (x, s') := Except.ok.inj (h1 ▸ hpop)
      obtain ⟨-, hs⟩ := Prod.mk.inj h3
      subst hs
      exact h2
  · intro i x s' p hget hp hp'
    by_cases hin : pyInRange l.length i
    · obtain ⟨x2, s'', h1, -, -, -, -, -, hflush⟩ := getItem_ok hrep hin
      have h3 : (x2, s'') = (x, s') := Except.ok.inj (h1 ▸ hget)
      obtain ⟨-, hs⟩ := Prod.mk.inj h3
      subst hs
      exact hflush p hp hp'
    · rw [getItem_err s i (by rw [hlen0]; exact hin)] at hget
      exact absurd hget (by simp)

/-- Witness for C3 at the sample mid-life state. -/
theorem c3_witness :
    (∀ v : Nat, ∃ s', append sEx v = Except.ok s' ∧
      represents s' ([10, 20, 30, 40] ++ [v])) ∧
    (∀ (i : Int) (v : Nat) s', setItem sEx i v = Except.ok s' →
      ∃ l', l'.length = ([10, 20, 30, 40] : List Nat).length ∧
        represents s' l') ∧
    (∀ (i : Int) x s', getItem sEx i = Except.ok (x, s') →
      represents s' [10, 20, 30, 40]) ∧
    (∀ x s', pop sEx (-1) = Except.ok (x, s') →
      represents s' ([10, 20, 30, 40] : List Nat).dropLast) ∧
    (∀ (i : Int) x s' p, getItem sEx i = Except.ok (x, s') →
      sEx.cur_page_no = some p → s'.cur_page_no ≠ some p →
      lookupFile s'.files p = some sEx.cur_page_data) :=
  c3_invariant_preserved sEx_repr

/-- C4: `get` and `set` normalize a negative index by adding the
length (`pyNorm`), succeed exactly when the normalized index lies in
`[0, length)` — `get` returning the item at that position and `set`
overwriting it — and fail with the `IndexError` kind exactly
otherwise. -/
theorem c4_get_set_bounds {α : Type} {s : FPS α} {l : List α}
    (hrep : represents s l) (i : Int) (v : α) :
    (pyInRange l.length i →
      (∃ x s', getItem s i = Except.ok (x, s') ∧
        l.get? (pyNorm l.length i).toNat = some x) ∧
      (∃ s', setItem s i v = Except.ok s' ∧
        represents s' (l.set (pyNorm l.length i).toNat v))) ∧
    (¬ pyInRange l.length i →
      getItem s i = Except.error Err.indexError ∧
      setItem s i v = Except.error Err.indexError) := by
  have hlen0 := hrep.2.1
  constructor
  · intro hin
    constructor
    · obtain ⟨x, s', h1, h2, -⟩ := getItem_ok hrep hin
      exact ⟨x, s', h1, h2⟩
    · obtain ⟨s', h1, h2, -⟩ := setItem_ok hrep hin v
      exact ⟨s', h1, h2⟩
  · intro hout
    exact ⟨getItem_err s i (by rw [hlen0]; exact hout),
      setItem_err s i v (by rw [hlen0]; exact hout)⟩

/-- Witness for C4 at the sample mid-life state with the negative
index `-1`. -/
theorem c4_witness :
    (pyInRange ([10, 20, 30, 40] : List Nat).length (-1) →
      (∃ x s', getItem sEx (-1) = Except.ok (x, s') ∧
        ([10, 20, 30, 40] : List Nat).get?
          (pyNorm ([10, 20, 30, 40] : List Nat).length (-1)).toNat =
          some x) ∧
      (∃ s', setItem sEx (-1) 99 = Except.ok s' ∧
        represents s' (([10, 20, 30, 40] : List Nat).set
          (pyNorm ([10, 20, 30, 40] : List Nat).length (-1)).toNat 99))) ∧
    (¬ pyInRange ([10, 20, 30, 40] : List Nat).length (-1) →
      getItem sEx (-1) = Except.error Err.indexError ∧
      setItem sEx (-1) 99 = Except.error Err.indexError) :=
  c4_get_set_bounds sEx_repr (-1) 99

/-- C5: the backing directory is not allocated at construction; a
sequence built from items that all fit in one page performs no disk
operations at all (no directory, no page files), and construction
allocates the directory exactly when the items overflow one page —
i.e. at the first page swap that must persist an outgoing resident
page. -/
theorem c5_lazy_directory {α : Type} (l : List α) (ps : Int)
    (hps : 1 ≤ ps) :
    (mkFPS α ps).dir_allocated = false ∧ (mkFPS α ps).files = [] ∧
    ∃ s, construct l ps = Except.ok s ∧
      (s.dir_allocated = true ↔ ps.toNat < l.length) ∧
      (l.length ≤ ps.toNat → s.dir_allocated = false ∧ s.files = []) := by
  refine ⟨rfl, rfl, ?_⟩
  obtain ⟨s, hc, hrep, hinv⟩ := construct_consInv l ps hps
  obtain ⟨hpn, hsmall, hbig⟩ := hinv
  refine ⟨s, hc, ⟨?_, fun h => hbig h⟩, fun h => hsmall h⟩
  intro halloc
  by_contra hnot
  have hfalse := (hsmall (by omega)).1
  rw [hfalse] at halloc
  exact Bool.false_ne_true halloc

/-- Witness for C5: four items with page size `3`, overflowing one
page. -/
theorem c5_witness :
    (mkFPS Nat 3).dir_allocated = false ∧ (mkFPS Nat 3).files = [] ∧
    ∃ s, construct [10, 20, 30, 40] (3 : Int) = Except.ok s ∧
      (s.dir_allocated = true ↔ (3 : Int).toNat < 4) ∧
      (4 ≤ (3 : Int).toNat → s.dir_allocated = false ∧ s.files = []) :=
  c5_lazy_directory [10, 20, 30, 40] 3 (by decide)

/-- C6: appending `v` and then immediately popping returns `v`, and
afterwards the length and the output of `iterate` are exactly what they
were before the append. -/
theorem c6_append_pop_symmetry {α : Type} {s : FPS α} {l : List α}
    (hrep : represents s l) (v : α) :
    ∃ s1 s2 s3 s4, append s v = Except.ok s1 ∧
      pop s1 (-1) = Except.ok (v, s2) ∧
      lenFPS s2 = lenFPS s ∧
      iterate s2 = Except.ok (l, s3) ∧
      iterate s = Except.ok (l, s4) := by
  obtain ⟨s1, ha, hrep1, -, hlen1, -⟩ := append_ok hrep v
  have hne : l ++ [v] ≠ [] := by simp
  obtain ⟨s2, hp, hrep2, -, hlen2, -⟩ := pop_ok hrep1 hne
  have hlast : (l ++ [v]).getLast hne = v := List.getLast_concat _
  have hdrop : (l ++ [v]).dropLast = l := List.dropLast_concat
  rw [hlast] at hp
  rw [hdrop] at hrep2
  obtain ⟨s3, hit2, -, -⟩ := iterate_ok hrep2
  obtain ⟨s4, hit1, -, -⟩ := iterate_ok hrep
  refine ⟨s1, s2, s3, s4, ha, hp, ?_, hit2, hit1⟩
  unfold lenFPS
  omega

/-- Witness for C6 at the sample mid-life state. -/
theorem c6_witness :
    ∃ s1 s2 s3 s4, append sEx 99 = Except.ok s1 ∧
      pop s1 (-1) = Except.ok (99, s2) ∧
      lenFPS s2 = lenFPS sEx ∧
      iterate s2 = Except.ok ([10, 20, 30, 40], s3) ∧
      iterate sEx = Except.ok ([10, 20, 30, 40], s4) :=
  c6_append_pop_symmetry sEx_repr 99

/-- C7: `close` is idempotent — a second call is a no-op thanks to the
`_closed` flag — and after one (hence after two) calls the in-memory
state is cleared and the backing directory and every page file are
gone. -/
theorem c7_close_idempotent {α : Type} {s : FPS α} {l : List α}
    (hrep : represents s l) :
    close (close s) = close s ∧
    (close s).cur_len = 0 ∧ (close s).cur_page_data = [] ∧
    (close s).cur_page_no = none ∧
    (close s).files = [] ∧ (close s).dir_exists = false := by
  obtain ⟨h1, h2, h3, h4, h5, h6⟩ := close_spec hrep
  exact ⟨close_idem s, h1, h2, h3, h4, h5⟩

/-- Witness for C7 at the sample mid-life state. -/
theorem c7_witness :
    close (close sEx) = close sEx ∧
    (close sEx).cur_len = 0 ∧ (close sEx).cur_page_data = [] ∧
    (close sEx).cur_page_no = none ∧
    (close sEx).files = [] ∧ (close sEx).dir_exists = false :=
  c7_close_idempotent sEx_repr

/-- C8: `get` is observationally pure with respect to the logical
contents: after any finite series of `get` accesses at valid indices
(each `k` with `-length ≤ k < length`, i.e. normalized into range),
the length is unchanged and `get k` still returns the same value as it
did before the series, for every valid `k` — the reads may swap pages
and rewrite files but never alter the items or their order. -/
theorem c8_get_observationally_pure {α : Type} {s : FPS α} {l : List α}
    (hrep : represents s l) (ks : List Int)
    (hks : ∀ k ∈ ks, pyInRange l.length k) :
    ∃ vs s', getSeries s ks = Except.ok (vs, s') ∧
      lenFPS s' = lenFPS s ∧
      ∀ k : Int, pyInRange l.length k →
        ∃ x s1 s2, getItem s' k = Except.ok (x, s1) ∧
          getItem s k = Except.ok (x, s2) := by
  obtain ⟨vs, s', hgo, hrep', hlen'⟩ := getSeries_ok ks s hrep hks
  refine ⟨vs, s', hgo, hlen', ?_⟩
  intro k hk
  obtain ⟨x1, s1, he1, hg1, -⟩ := getItem_ok hrep' hk
  obtain ⟨x2, s2, he2, hg2, -⟩ := getItem_ok hrep hk
  have hx : x1 = x2 := by
    rw [hg1] at hg2
    exact Option.some.inj hg2
  exact ⟨x1, s1, s2, he1, by rw [hx]; exact he2⟩

/-- Witness for C8 at the sample mid-life state with a page-thrashing
access series. -/
theorem c8_witness :
    ∃ vs s', getSeries sEx [0, -1, 2, 1] = Except.ok (vs, s') ∧
      lenFPS s' = lenFPS sEx ∧
      ∀ k : Int, pyInRange ([10, 20, 30, 40] : List Nat).length k →
        ∃ x s1 s2, getItem s' k = Except.ok (x, s1) ∧
          getItem sEx k = Except.ok (x, s2) :=
  c8_get_observationally_pure sEx_repr [0, -1, 2, 1] (by decide)

/-- C9: popping (with the index omitted, i.e. the default `-1`) from an
empty sequence fails with the `IndexError` kind — the bounds check in
`_local_index` rejects the access before any state is touched — and not
with the unsupported-operation kind. -/
theorem c9_pop_empty_sequence {α : Type} (s : FPS α)
    (h : lenFPS s = 0) :
    pop s (-1) = Except.error Err.indexError ∧
    Err.indexError ≠ Err.notImplemented :=
  ⟨pop_empty s h, by decide⟩

/-- Witness for C9 on a freshly constructed empty sequence. -/
theorem c9_witness :
    pop (mkFPS Nat 1000) (-1) = Except.error Err.indexError ∧
    Err.indexError ≠ Err.notImplemented :=
  c9_pop_empty_sequence (mkFPS Nat 1000) rfl

/-- C10 counterexample: on the sequence constructed with
`page_size = 0` from an empty iterable, `get` with index `0` does not
fail with the division-by-zero kind as the claim states: the bounds
check of `_local_index` fires before the `divmod`, so it fails with the
`IndexError` kind. -/
theorem c10_counterexample :
    construct ([] : List Nat) 0 = Except.ok (mkFPS Nat 0) ∧
    getItem (mkFPS Nat 0) 0 = Except.error Err.indexError ∧
    Err.indexError ≠ Err.zeroDivision :=
  ⟨rfl, rfl, by decide⟩

/-- C10 (amended): the constructor does not validate `page_size`:
construction from an empty iterable succeeds for `page_size = 0` and
any non-positive value; on the resulting (necessarily empty) sequence
the first `append` fails with the division-by-zero kind from the
unguarded `divmod`, while `get`/`set` with any index fail with the
`IndexError` kind, because the bounds check against the zero length
precedes the `divmod`; the operations are total only under
`page_size ≥ 1`. -/
theorem c10_no_page_size_validation (ps : Int) (_h : ps ≤ 0) (v : Nat)
    (i : Int) :
    construct ([] : List Nat) ps = Except.ok (mkFPS Nat ps) ∧
    append (mkFPS Nat 0) v = Except.error Err.zeroDivision ∧
    getItem (mkFPS Nat 0) i = Except.error Err.indexError ∧
    setItem (mkFPS Nat 0) i v = Except.error Err.indexError := by
  have hout : ∀ j : Int, ¬ pyInRange 0 j := by
    intro j hcon
    obtain ⟨h1, h2⟩ := hcon
    unfold pyNorm at h1 h2
    by_cases hj : j < 0
    · rw [if_pos hj] at h1 h2
      omega
    · rw [if_neg hj] at h1 h2
      omega
  exact ⟨rfl, rfl, getItem_err _ i (hout i), setItem_err _ i v (hout i)⟩

/-- Witness for the amended C10 at `page_size = 0`, item `5`,
index `0`. -/
theorem c10_witness :
    construct ([] : List Nat) 0 = Except.ok (mkFPS Nat 0) ∧
    append (mkFPS Nat 0) 5 = Except.error Err.zeroDivision ∧
    getItem (mkFPS Nat 0) 0 = Except.error Err.indexError ∧
    setItem (mkFPS Nat 0) 0 5 = Except.error Err.indexError :=
  c10_no_page_size_validation 0 (by decide) 5 0

end N6
